import Mathlib

/-!
Verification of `title_abstract_screening.py`, a screening pipeline for
systematic reviews.  The pipeline parses an EndNote-style tagged text export
into records, classifies each record into one of six buckets using substring
heuristics over the title and abstract, and emits a summary report.

Text is embedded as `List Char` (`Str`): every Python string operation the
program uses (`strip`, `lower`, `split`, substring `in`) is translated into an
executable character-list function below, so all definitions evaluate by
`decide`/`rfl` on concrete inputs.
-/

/-- Python strings are modelled as lists of characters. -/
abbrev Str := List Char

/-- True when `p` is an initial segment of `s`. -/
def leadsWith : Str → Str → Bool
  | [], _ => true
  | _ :: _, [] => false
  | p :: ps, c :: cs => p == c && leadsWith ps cs

/-- Python's substring test `pat in text`: true when `pat` occurs as a
contiguous segment of `text` (the empty pattern occurs in every text). -/
def containsSeg : Str → Str → Bool
  | [], pat => leadsWith pat []
  | c :: rest, pat => leadsWith pat (c :: rest) || containsSeg rest pat

/-- Holds when `pat` occurs as a contiguous substring of `s`. -/
def OccursIn (pat s : Str) : Prop := ∃ l r, s = l ++ pat ++ r

/-- Python `str.lower()` (ASCII case folding, the only case the data uses). -/
def pyLower (s : Str) : Str := s.map Char.toLower

/-- Python `str.strip()`: drop leading and trailing whitespace. -/
def pyStrip (s : Str) : Str :=
  ((s.dropWhile Char.isWhitespace).reverse.dropWhile Char.isWhitespace).reverse

/-- Python `content.split('\n')`: split on every newline, keeping empty
pieces; the empty string yields one empty piece. -/
def splitLines : Str → List Str
  | [] => [[]]
  | c :: rest =>
    if c = '\n' then [] :: splitLines rest
    else
      match splitLines rest with
      | [] => [[c]]
      | l :: ls => (c :: l) :: ls

/-- A parsed EndNote record: an insertion-ordered mapping from two-character
tag keys (`%T`, `%A`, ...) to accumulated field text, as the Python dict. -/
abbrev Record := List (Str × Str)

/-- Python `entry.get(tag, '')`. -/
def Record.get : Record → Str → Str
  | [], _ => []
  | (k, v) :: rest, key => if k = key then v else Record.get rest key

/-- Python `tag in entry`. -/
def Record.hasTag : Record → Str → Bool
  | [], _ => false
  | (k, _) :: rest, key => k == key || Record.hasTag rest key

/-- The dict update in the parser loop: a new tag is inserted at the end with
value `v`; a repeated tag has `' ' + v` appended to its existing value. -/
def Record.store (r : Record) (key v : Str) : Record :=
  if r.hasTag key then
    r.map (fun p => if p.1 = key then (p.1, p.2 ++ ' ' :: v) else p)
  else r ++ [(key, v)]

/-- The title tag `%T`. -/
def tagT : Str := ['%', 'T']

/-- The abstract tag `%X`. -/
def tagX : Str := ['%', 'X']

/-- The regex test `re.match(r'^%[A-Z]', line)`: the line starts with a
percent sign followed by an uppercase letter. -/
def isTagMarker : Str → Bool
  | '%' :: c :: _ => decide ('A' ≤ c) && decide (c ≤ 'Z')
  | _ => false

/-- The loop state of `parse_endnote_entries`: finished entries, the entry
being accumulated, and the most recent tag marker seen. -/
structure PState where
  entries : List Record
  current : Record
  currentTag : Option Str
deriving Repr, DecidableEq

/-- One iteration of the parser loop of `parse_endnote_entries` on a raw
line: strip it; a blank line flushes a non-empty current entry; otherwise a
tag-marker line updates the current tag and stores the remainder, and any
other line is stored under the current tag (if one is set). -/
def parseLine (st : PState) (rawLine : Str) : PState :=
  let line := pyStrip rawLine
  if line = [] then
    if st.current = [] then st
    else { st with entries := st.entries ++ [st.current], current := [] }
  else
    let tagged := isTagMarker line
    let tag := if tagged then some (line.take 2) else st.currentTag
    let content := if tagged then pyStrip (line.drop 2) else line
    match tag with
    | some t =>
        { entries := st.entries, current := st.current.store t content,
          currentTag := some t }
    | none => st

/-- Python `parse_endnote_entries(content)`: split on newlines, run the line loop,
and flush the last entry if it is non-empty. -/
def parse_endnote_entries (content : Str) : List Record :=
  let st := (splitLines content).foldl parseLine ⟨[], [], none⟩
  if st.current = [] then st.entries else st.entries ++ [st.current]

/-- The primary-condition synonym list. -/
def primary_terms : List Str :=
  ["hfpef".toList, "heart failure with preserved ejection fraction".toList,
   "diastolic heart failure".toList]

/-- The text the three predicates scan: `(title + ' ' + abstract).lower()`. -/
def entryText (e : Record) : Str :=
  pyLower (Record.get e tagT ++ ' ' :: Record.get e tagX)

/-- Python `check_primary_condition(entry)`. -/
def check_primary_condition (e : Record) : Bool :=
  primary_terms.any (fun t => containsSeg (entryText e) t)

/-- The pathway/mechanism keyword categories. -/
def pathway_categories : List (String × List Str) :=
  [("metabolism",
    ["fatty acid".toList, "glucose".toList, "metabolic".toList, "oxidation".toList]),
   ("inflammation", ["inflammation".toList, "cytokine".toList, "immune".toList]),
   ("fibrosis", ["fibrosis".toList, "collagen".toList, "extracellular matrix".toList])]

/-- Python `check_pathway_terms(entry)`: count matching terms per category, true when
some category has at least one match. -/
def check_pathway_terms (e : Record) : Bool :=
  let text := entryText e
  let counts := pathway_categories.map
    (fun c => (c.1, (c.2.filter (fun t => containsSeg text t)).length))
  counts.any (fun p => 1 ≤ p.2)

/-- The methodology keyword categories. -/
def methodology_categories : List (String × List Str) :=
  [("clinical", ["patient".toList, "clinical trial".toList, "cohort".toList]),
   ("animal", ["mouse".toList, "rat".toList, "animal model".toList]),
   ("molecular",
    ["cell culture".toList, "protein expression".toList, "gene expression".toList])]

/-- Python `check_methodology(entry)`: same structure as the pathway check. -/
def check_methodology (e : Record) : Bool :=
  let text := entryText e
  let counts := methodology_categories.map
    (fun c => (c.1, (c.2.filter (fun t => containsSeg text t)).length))
  counts.any (fun p => 1 ≤ p.2)

/-- The six buckets of `filter_articles`, in the dict's insertion order. -/
structure Categories where
  included : List Record
  systematic_reviews : List Record
  narrative_reviews : List Record
  duplicates : List Record
  unrelated : List Record
  methodology_lacking : List Record
deriving Repr, DecidableEq

/-- The initial bucket dict of `filter_articles`. -/
def Categories.empty : Categories := ⟨[], [], [], [], [], []⟩

/-- The loop state of `filter_articles`: the buckets plus the
`processed_titles` set (modelled as the list of titles added, membership
being Python's set membership). -/
abbrev CState := Categories × List Str

/-- The literal `'review'` scanned for in titles. -/
def reviewStr : Str := "review".toList

/-- The literal `'systematic review'` scanned for in titles. -/
def sysReviewStr : Str := "systematic review".toList

/-- One iteration of the loop of `filter_articles` on one entry:
drop empty titles; duplicates first; then reviews; then the condition,
pathway and methodology gates, first match wins. -/
def classifyStep (st : CState) (e : Record) : CState :=
  let title := pyLower (Record.get e tagT)
  if title = [] then st
  else if title ∈ st.2 then
    ({ st.1 with duplicates := st.1.duplicates ++ [e] }, st.2)
  else
    let seen := st.2 ++ [title]
    if containsSeg (pyLower title) reviewStr then
      if containsSeg (pyLower title) sysReviewStr then
        ({ st.1 with systematic_reviews := st.1.systematic_reviews ++ [e] }, seen)
      else
        ({ st.1 with narrative_reviews := st.1.narrative_reviews ++ [e] }, seen)
    else if !check_primary_condition e then
      ({ st.1 with unrelated := st.1.unrelated ++ [e] }, seen)
    else if check_pathway_terms e && check_methodology e then
      ({ st.1 with included := st.1.included ++ [e] }, seen)
    else
      ({ st.1 with methodology_lacking := st.1.methodology_lacking ++ [e] }, seen)

/-- Python `filter_articles(entries)`. -/
def filter_articles (entries : List Record) : Categories :=
  (entries.foldl classifyStep (Categories.empty, [])).1

/-- The bucket dict as the ordered association list `create_excel_report`
iterates over. -/
def catList (c : Categories) : List (String × List Record) :=
  [("included", c.included), ("systematic_reviews", c.systematic_reviews),
   ("narrative_reviews", c.narrative_reviews), ("duplicates", c.duplicates),
   ("unrelated", c.unrelated), ("methodology_lacking", c.methodology_lacking)]

/-- The Summary sheet of `create_excel_report`: one (category, count) row per
bucket, in dict order, empty buckets included. -/
def summary_sheet (c : Categories) : List (String × Nat) :=
  (catList c).map (fun p => (p.1, p.2.length))

/-- The per-category detail sheets of `create_excel_report`: one sheet per
bucket, skipping empty buckets. -/
def detail_sheets (c : Categories) : List (String × List Record) :=
  (catList c).filter (fun p => !p.2.isEmpty)

/-- The total number of records across the six buckets: the sum of the
Summary sheet's counts. -/
def totalSize (c : Categories) : Nat :=
  c.included.length + c.systematic_reviews.length + c.narrative_reviews.length
    + c.duplicates.length + c.unrelated.length + c.methodology_lacking.length

/-! ### Substring containment: `containsSeg` agrees with `OccursIn` -/

theorem leadsWith_iff (p s : Str) : leadsWith p s = true ↔ ∃ r, s = p ++ r := by
  induction p generalizing s with
  | nil => simp [leadsWith]
  | cons c cs ih =>
    cases s with
    | nil => simp [leadsWith]
    | cons d ds =>
      simp only [leadsWith, Bool.and_eq_true, beq_iff_eq, ih, List.cons_append,
        List.cons.injEq]
      constructor
      · rintro ⟨rfl, r, rfl⟩; exact ⟨r, rfl, rfl⟩
      · rintro ⟨r, rfl, rfl⟩; exact ⟨rfl, r, rfl⟩

theorem containsSeg_iff (s pat : Str) : containsSeg s pat = true ↔ OccursIn pat s := by
  induction s with
  | nil =>
    simp only [containsSeg, leadsWith_iff, OccursIn]
    constructor
    · rintro ⟨r, h⟩
      exact ⟨[], r, by simpa using h⟩
    · rintro ⟨l, r, h⟩
      obtain ⟨hl, hr⟩ := List.append_eq_nil.mp h.symm
      obtain ⟨hl2, hpat⟩ := List.append_eq_nil.mp hl
      exact ⟨r, by simp [hpat, hr]⟩
  | cons c rest ih =>
    simp only [containsSeg, Bool.or_eq_true, leadsWith_iff, ih, OccursIn]
    constructor
    · rintro (⟨r, h⟩ | ⟨l, r, rfl⟩)
      · exact ⟨[], r, by simp [h]⟩
      · exact ⟨c :: l, r, by simp⟩
    · rintro ⟨l, r, h⟩
      cases l with
      | nil => exact Or.inl ⟨r, by simpa using h⟩
      | cons d l' =>
        simp only [List.cons_append, List.cons.injEq] at h
        exact Or.inr ⟨l', r, h.2⟩

theorem occursIn_trans {p q s : Str} (h1 : OccursIn p q) (h2 : OccursIn q s) :
    OccursIn p s := by
  obtain ⟨l1, r1, rfl⟩ := h1
  obtain ⟨l2, r2, rfl⟩ := h2
  exact ⟨l2 ++ l1, r1 ++ r2, by simp⟩

theorem one_le_length_filter {α} (p : α → Bool) (l : List α) :
    1 ≤ (l.filter p).length ↔ ∃ a ∈ l, p a = true := by
  rw [Nat.one_le_iff_ne_zero, Ne, List.length_eq_zero, List.filter_eq_nil_iff]
  push_neg
  simp

theorem catCheck_iff (cats : List (String × List Str)) (text : Str) :
    ((cats.map (fun c => (c.1, (c.2.filter (fun t => containsSeg text t)).length))).any
        (fun p => 1 ≤ p.2) = true)
      ↔ ∃ c ∈ cats, ∃ t ∈ c.2, OccursIn t text := by
  rw [List.any_eq_true]
  simp only [List.mem_map]
  constructor
  · rintro ⟨p, ⟨c, hc, rfl⟩, hp⟩
    simp only [decide_eq_true_iff, one_le_length_filter] at hp
    obtain ⟨t, ht, hct⟩ := hp
    exact ⟨c, hc, t, ht, (containsSeg_iff _ _).mp hct⟩
  · rintro ⟨c, hc, t, ht, hocc⟩
    refine ⟨_, ⟨c, hc, rfl⟩, ?_⟩
    simp only [decide_eq_true_iff, one_le_length_filter]
    exact ⟨t, ht, (containsSeg_iff _ _).mpr hocc⟩

/-- C8: each of the three classification predicates is true exactly when one
of its fixed terms occurs as a plain substring of the lower-cased
`title ++ " " ++ abstract` text; and since matching is bare substring
containment, a term buried inside a longer unrelated word still matches
(`hfpef` in `xhfpefy`, `immune` in `autoimmunex`, `rat` in `ratatouille`). -/
theorem C8_substring_semantics :
    (∀ e, check_primary_condition e = true ↔
        ∃ t ∈ primary_terms, OccursIn t (entryText e))
    ∧ (∀ e, check_pathway_terms e = true ↔
        ∃ c ∈ pathway_categories, ∃ t ∈ c.2, OccursIn t (entryText e))
    ∧ (∀ e, check_methodology e = true ↔
        ∃ c ∈ methodology_categories, ∃ t ∈ c.2, OccursIn t (entryText e))
    ∧ check_primary_condition [(tagT, "xhfpefy".toList)] = true
    ∧ check_pathway_terms [(tagT, "autoimmunex".toList)] = true
    ∧ check_methodology [(tagT, "ratatouille".toList)] = true := by
  refine ⟨?_, ?_, ?_, by decide, by decide, by decide⟩
  · intro e
    simp only [check_primary_condition, List.any_eq_true, containsSeg_iff]
  · intro e
    exact catCheck_iff pathway_categories (entryText e)
  · intro e
    exact catCheck_iff methodology_categories (entryText e)

theorem containsSeg_review_of_systematic {t : Str}
    (h : containsSeg t sysReviewStr = true) :
    containsSeg t reviewStr = true := by
  rw [containsSeg_iff] at h ⊢
  exact occursIn_trans ((containsSeg_iff sysReviewStr reviewStr).mp (by decide)) h

theorem pyLower_ne_nil {s : Str} (h : s ≠ []) : pyLower s ≠ [] := by
  simpa [pyLower] using h

/-- C2: a non-duplicate, non-review record with a non-empty title is routed by
the three gates: no primary-condition synonym puts it in `unrelated`; a
condition match together with a pathway match and a methodology match puts it
in `included`; a condition match with either of the two later checks failing
puts it in `methodology_lacking`. -/
theorem C2_condition_gates (st : CState) (e : Record)
    (ht : Record.get e tagT ≠ [])
    (hdup : pyLower (Record.get e tagT) ∉ st.2)
    (hrev : containsSeg (pyLower (pyLower (Record.get e tagT))) reviewStr = false) :
    (check_primary_condition e = false →
      (classifyStep st e).1 = { st.1 with unrelated := st.1.unrelated ++ [e] })
    ∧ (check_primary_condition e = true → check_pathway_terms e = true →
        check_methodology e = true →
      (classifyStep st e).1 = { st.1 with included := st.1.included ++ [e] })
    ∧ (check_primary_condition e = true →
        (check_pathway_terms e = false ∨ check_methodology e = false) →
      (classifyStep st e).1
        = { st.1 with methodology_lacking := st.1.methodology_lacking ++ [e] }) := by
  have htl := pyLower_ne_nil ht
  refine ⟨fun hc => ?_, fun hc hp hm => ?_, fun hc hpm => ?_⟩
  · simp [classifyStep, htl, hdup, hrev, hc]
  · simp [classifyStep, htl, hdup, hrev, hc, hp, hm]
  · rcases hpm with hp | hm
    · simp [classifyStep, htl, hdup, hrev, hc, hp]
    · simp [classifyStep, htl, hdup, hrev, hc, hm]

/-- C3: a non-duplicate record with a non-empty title whose title contains
"systematic review" (case-insensitively) lands in `systematic_reviews`, with
no condition/pathway/methodology hypotheses at all; a title containing
"review" but not "systematic review" lands in `narrative_reviews`. -/
theorem C3_review_buckets (st : CState) (e : Record)
    (ht : Record.get e tagT ≠ [])
    (hdup : pyLower (Record.get e tagT) ∉ st.2) :
    (containsSeg (pyLower (pyLower (Record.get e tagT))) sysReviewStr = true →
      (classifyStep st e).1
        = { st.1 with systematic_reviews := st.1.systematic_reviews ++ [e] })
    ∧ (containsSeg (pyLower (pyLower (Record.get e tagT))) reviewStr = true →
        containsSeg (pyLower (pyLower (Record.get e tagT))) sysReviewStr = false →
      (classifyStep st e).1
        = { st.1 with narrative_reviews := st.1.narrative_reviews ++ [e] }) := by
  have htl := pyLower_ne_nil ht
  refine ⟨fun hsys => ?_, fun hrev hsys => ?_⟩
  · simp [classifyStep, htl, hdup, containsSeg_review_of_systematic hsys, hsys]
  · simp [classifyStep, htl, hdup, hrev, hsys]

/-- A record with no primary-condition synonym and no "review" in the title. -/
def exUnrel : Record := [(tagT, "banana study".toList)]

/-- A record matching condition, pathway and methodology terms. -/
def exInc : Record := [(tagT, "hfpef glucose patient".toList)]

/-- A record matching the condition but no pathway or methodology term. -/
def exML : Record := [(tagT, "hfpef something".toList)]

/-- A record whose title contains "systematic review". -/
def exSys : Record := [(tagT, "A Systematic Review of hfpef".toList)]

/-- A record whose title contains "review" but not "systematic review". -/
def exNarr : Record := [(tagT, "A Review of hfpef".toList)]

theorem C2_condition_gates_witness :
    (classifyStep (Categories.empty, []) exUnrel).1
      = { Categories.empty with unrelated := [exUnrel] }
    ∧ (classifyStep (Categories.empty, []) exInc).1
      = { Categories.empty with included := [exInc] }
    ∧ (classifyStep (Categories.empty, []) exML).1
      = { Categories.empty with methodology_lacking := [exML] } :=
  ⟨(C2_condition_gates (Categories.empty, []) exUnrel (by decide) (by decide)
      (by decide)).1 (by decide),
   (C2_condition_gates (Categories.empty, []) exInc (by decide) (by decide)
      (by decide)).2.1 (by decide) (by decide) (by decide),
   (C2_condition_gates (Categories.empty, []) exML (by decide) (by decide)
      (by decide)).2.2 (by decide) (Or.inl (by decide))⟩

theorem C3_review_buckets_witness :
    (classifyStep (Categories.empty, []) exSys).1
      = { Categories.empty with systematic_reviews := [exSys] }
    ∧ (classifyStep (Categories.empty, []) exNarr).1
      = { Categories.empty with narrative_reviews := [exNarr] } :=
  ⟨(C3_review_buckets (Categories.empty, []) exSys (by decide) (by decide)).1
      (by decide),
   (C3_review_buckets (Categories.empty, []) exNarr (by decide) (by decide)).2
      (by decide) (by decide)⟩

/-- States that `c'` is `c` with `e` appended to exactly one of the six buckets, the
other five unchanged. -/
def appendedToExactlyOne (c c' : Categories) (e : Record) : Prop :=
  (c' = { c with included := c.included ++ [e] })
  ∨ (c' = { c with systematic_reviews := c.systematic_reviews ++ [e] })
  ∨ (c' = { c with narrative_reviews := c.narrative_reviews ++ [e] })
  ∨ (c' = { c with duplicates := c.duplicates ++ [e] })
  ∨ (c' = { c with unrelated := c.unrelated ++ [e] })
  ∨ (c' = { c with methodology_lacking := c.methodology_lacking ++ [e] })

theorem classifyStep_empty_title (st : CState) (e : Record)
    (h : Record.get e tagT = []) : classifyStep st e = st := by
  simp [classifyStep, h, pyLower]

theorem classifyStep_appends (st : CState) (e : Record)
    (h : Record.get e tagT ≠ []) :
    appendedToExactlyOne st.1 (classifyStep st e).1 e := by
  have htl := pyLower_ne_nil h
  simp only [classifyStep, appendedToExactlyOne, htl, if_false]
  split_ifs <;> simp

theorem totalSize_classifyStep (st : CState) (e : Record) :
    totalSize (classifyStep st e).1
      = totalSize st.1 + (if Record.get e tagT = [] then 0 else 1) := by
  by_cases h : Record.get e tagT = []
  · simp [classifyStep_empty_title st e h, h]
  · have htl := pyLower_ne_nil h
    simp only [classifyStep, htl, if_false, h]
    split_ifs <;> simp [totalSize] <;> omega

theorem totalSize_foldl (entries : List Record) (st : CState) :
    totalSize ((entries.foldl classifyStep st).1)
      = totalSize st.1
        + (entries.filter (fun e => !(Record.get e tagT).isEmpty)).length := by
  induction entries generalizing st with
  | nil => simp
  | cons e es ih =>
    rw [List.foldl_cons, ih, totalSize_classifyStep]
    by_cases h : Record.get e tagT = []
    · simp [h, List.filter_cons]
    · simp [h, List.filter_cons]
      omega

/-- C1: the sum of the six bucket sizes (the Summary counts) equals the
number of input records with a non-empty title; a record with an empty or
missing title leaves the classifier state untouched (it is dropped), and a
record with a non-empty title is appended to exactly one of the six buckets
in one loop iteration. -/
theorem C1_bucket_partition (entries : List Record) :
    totalSize (filter_articles entries)
      = (entries.filter (fun e => !(Record.get e tagT).isEmpty)).length
    ∧ (∀ st e, Record.get e tagT = [] → classifyStep st e = st)
    ∧ (∀ st e, Record.get e tagT ≠ [] →
        appendedToExactlyOne st.1 (classifyStep st e).1 e) := by
  refine ⟨?_, classifyStep_empty_title, classifyStep_appends⟩
  simpa [filter_articles, Categories.empty, totalSize]
    using totalSize_foldl entries (Categories.empty, [])

/-- A record with no `%T` field at all. -/
def exNoTitle : Record := [(tagX, "no title here".toList)]

theorem C1_bucket_partition_witness :
    totalSize (filter_articles [exInc, exNoTitle]) = 1
    ∧ classifyStep (Categories.empty, []) exNoTitle = (Categories.empty, [])
    ∧ appendedToExactlyOne Categories.empty
        (classifyStep (Categories.empty, []) exInc).1 exInc := by
  have h := C1_bucket_partition [exInc, exNoTitle]
  refine ⟨?_, h.2.1 (Categories.empty, []) exNoTitle (by decide),
    h.2.2 (Categories.empty, []) exInc (by decide)⟩
  rw [h.1]
  decide

/-- C10: the Summary sheet always has exactly six rows, one per category in
dict order — including zero-count categories — while a detail sheet exists
for a category exactly when its bucket is non-empty. -/
theorem C10_report_sheets (c : Categories) :
    (summary_sheet c).map Prod.fst
      = ["included", "systematic_reviews", "narrative_reviews", "duplicates",
         "unrelated", "methodology_lacking"]
    ∧ (summary_sheet c).length = 6
    ∧ (∀ name rs, (name, rs) ∈ catList c →
        ((name, rs) ∈ detail_sheets c ↔ rs ≠ [])) := by
  refine ⟨rfl, rfl, ?_⟩
  intro name rs hmem
  simp [detail_sheets, List.mem_filter, hmem]

theorem C10_report_sheets_witness :
    (("included", [exInc])
        ∈ detail_sheets { Categories.empty with included := [exInc] }
      ↔ [exInc] ≠ ([] : List Record)) :=
  (C10_report_sheets { Categories.empty with included := [exInc] }).2.2
    "included" [exInc] (by decide)

/-- The console line the top-level handler prints for an exception `e`:
`'An error occurred: ' + str(e)`. -/
def errorLine (e : Str) : Str := "An error occurred: ".toList ++ e

/-- The body of `main` inside the `try` block: the two effectful steps —
reading the input file and writing the Excel report — are passed in as
fallible actions, and the pure parse and classify stages run in between with
no local error handling anywhere. -/
def runPipeline (readInput : Except Str Str)
    (writeReport : Categories → Except Str Unit) : Except Str Categories :=
  match readInput with
  | .error e => .error e
  | .ok content =>
    let cats := filter_articles (parse_endnote_entries content)
    match writeReport cats with
    | .error e => .error e
    | .ok _ => .ok cats

/-- The `try/except` wrapper of `main`: on success the categorized buckets
come back; on any exception the handler prints `An error occurred: ...` (the
first component collects printed error lines) and re-raises the same
exception. -/
def mainDriver (readInput : Except Str Str)
    (writeReport : Categories → Except Str Unit) :
    List Str × Except Str Categories :=
  match runPipeline readInput writeReport with
  | .ok cats => ([], .ok cats)
  | .error e => ([errorLine e], .error e)

/-- C9: any exception in the driver's flow reaches the single top-level
handler, which prints the error message and re-raises the very same
exception, so the driver never completes normally after an error; a failure
of the input-reading step or of the report-writing step propagates unchanged
through the pipeline. -/
theorem C9_error_propagation (readInput : Except Str Str)
    (writeReport : Categories → Except Str Unit) (e : Str) :
    (runPipeline readInput writeReport = .error e →
      mainDriver readInput writeReport = ([errorLine e], .error e))
    ∧ (readInput = .error e → runPipeline readInput writeReport = .error e)
    ∧ (∀ content, readInput = .ok content →
        writeReport (filter_articles (parse_endnote_entries content)) = .error e →
        runPipeline readInput writeReport = .error e) := by
  refine ⟨fun h => ?_, fun h => ?_, fun content hc hw => ?_⟩
  · simp [mainDriver, h]
  · simp [runPipeline, h]
  · simp [runPipeline, hc, hw]

theorem C9_error_propagation_witness :
    mainDriver (Except.error "file not found".toList) (fun _ => Except.ok ())
      = ([errorLine "file not found".toList],
         Except.error "file not found".toList) := by
  have h := C9_error_propagation (Except.error "file not found".toList)
    (fun _ => Except.ok ()) "file not found".toList
  exact h.1 (h.2.1 rfl)

theorem seen_mono_step (st : CState) (e : Record) {t : Str} (h : t ∈ st.2) :
    t ∈ (classifyStep st e).2 := by
  simp only [classifyStep]
  split_ifs <;> simp [h]

theorem seen_mono_foldl (es : List Record) (st : CState) {t : Str}
    (h : t ∈ st.2) : t ∈ (es.foldl classifyStep st).2 := by
  induction es generalizing st with
  | nil => exact h
  | cons e es ih => exact ih _ (seen_mono_step st e h)

theorem title_in_seen_step (st : CState) (e : Record)
    (h : Record.get e tagT ≠ []) :
    pyLower (Record.get e tagT) ∈ (classifyStep st e).2 := by
  have htl := pyLower_ne_nil h
  simp only [classifyStep, htl, if_false]
  by_cases hd : pyLower (Record.get e tagT) ∈ st.2
  · simp [hd]
  · simp only [hd, if_false]
    split_ifs <;> simp

theorem dup_mono_step (st : CState) (e : Record) {x : Record}
    (h : x ∈ st.1.duplicates) : x ∈ (classifyStep st e).1.duplicates := by
  simp only [classifyStep]
  split_ifs <;> simp [h]

theorem dup_mono_foldl (es : List Record) (st : CState) {x : Record}
    (h : x ∈ st.1.duplicates) : x ∈ (es.foldl classifyStep st).1.duplicates := by
  induction es generalizing st with
  | nil => exact h
  | cons e es ih => exact ih _ (dup_mono_step st e h)

theorem dup_step (st : CState) (e : Record)
    (h : Record.get e tagT ≠ [])
    (hseen : pyLower (Record.get e tagT) ∈ st.2) :
    (classifyStep st e).1.duplicates = st.1.duplicates ++ [e] := by
  have htl := pyLower_ne_nil h
  simp [classifyStep, htl, hseen]

/-- C4: whenever the input sequence contains an earlier record `a` and a
later record `b` whose titles agree after lower-casing (non-empty), the later
record ends up in the `duplicates` bucket — whatever its abstract says and
whatever the review/condition/pathway/methodology rules would say about it. -/
theorem C4_duplicate_detection (l1 l2 l3 : List Record) (a b : Record)
    (hne : Record.get a tagT ≠ [])
    (heq : pyLower (Record.get a tagT) = pyLower (Record.get b tagT)) :
    b ∈ (filter_articles (l1 ++ a :: (l2 ++ b :: l3))).duplicates := by
  unfold filter_articles
  rw [List.foldl_append, List.foldl_cons, List.foldl_append, List.foldl_cons]
  apply dup_mono_foldl
  have hb : Record.get b tagT ≠ [] := by
    intro hbnil
    exact pyLower_ne_nil hne (by rw [heq, hbnil]; rfl)
  have hseen : pyLower (Record.get b tagT)
      ∈ (l2.foldl classifyStep
          (classifyStep (l1.foldl classifyStep (Categories.empty, [])) a)).2 := by
    rw [← heq]
    exact seen_mono_foldl l2 _ (title_in_seen_step _ a hne)
  rw [dup_step _ b hb hseen]
  simp

/-- A record repeating `exInc`'s title up to letter case, with an unrelated
abstract. -/
def exDupB : Record :=
  [(tagT, "HFPEF Glucose Patient".toList), (tagX, "totally different".toList)]

theorem C4_duplicate_detection_witness :
    exDupB ∈ (filter_articles [exInc, exDupB]).duplicates :=
  C4_duplicate_detection [] [] [] exInc exDupB (by decide) (by decide)

theorem get_append_of_not_hasTag (r : Record) (key v : Str)
    (h : r.hasTag key = false) : Record.get (r ++ [(key, v)]) key = v := by
  induction r with
  | nil => simp [Record.get]
  | cons p rest ih =>
    obtain ⟨k, v'⟩ := p
    simp only [Record.hasTag, Bool.or_eq_false_iff, beq_eq_false_iff_ne, Ne] at h
    simp [Record.get, h.1, ih h.2]

theorem store_get_new (r : Record) (key v : Str) (h : r.hasTag key = false) :
    Record.get (r.store key v) key = v := by
  rw [Record.store, if_neg (by simp [h])]
  exact get_append_of_not_hasTag r key v h

theorem store_get_repeat (r : Record) (key v : Str) (h : r.hasTag key = true) :
    Record.get (r.store key v) key = Record.get r key ++ ' ' :: v := by
  rw [Record.store, if_pos h]
  induction r with
  | nil => simp [Record.hasTag] at h
  | cons p rest ih =>
    obtain ⟨k, v'⟩ := p
    simp only [Record.hasTag, Bool.or_eq_true, beq_iff_eq] at h
    simp only [List.map_cons]
    by_cases hk : k = key
    · subst hk
      rw [if_pos rfl]
      simp [Record.get]
    · have h' : Record.hasTag rest key = true := by
        rcases h with h | h
        · exact absurd h hk
        · exact h
      rw [if_neg hk]
      simp [Record.get, hk, ih h']

theorem parseLine_marker (st : PState) (l : Str)
    (hm : isTagMarker (pyStrip l) = true) :
    parseLine st l
      = ⟨st.entries,
         st.current.store ((pyStrip l).take 2) (pyStrip ((pyStrip l).drop 2)),
         some ((pyStrip l).take 2)⟩ := by
  have hne : pyStrip l ≠ [] := by
    intro h
    rw [h] at hm
    simp [isTagMarker] at hm
  simp [parseLine, hne, hm]

theorem parseLine_continuation (st : PState) (l : Str) (t : Str)
    (hne : pyStrip l ≠ []) (hm : isTagMarker (pyStrip l) = false)
    (htag : st.currentTag = some t) :
    parseLine st l = ⟨st.entries, st.current.store t (pyStrip l), some t⟩ := by
  simp [parseLine, hne, hm, htag]

/-- C6: building one record from its lines: a tag-marker line whose tag is
new for the current record sets that field to the remainder after the
two-character marker; a marker line repeating a tag appends the remainder to
the existing value after a single space; a non-marker line appends its
stripped text to the current tag's existing value after a single space —
always old text first, new text last. -/
theorem C6_field_accumulation (st : PState) (rawLine : Str)
    (hne : pyStrip rawLine ≠ []) :
    (isTagMarker (pyStrip rawLine) = true →
      Record.hasTag st.current ((pyStrip rawLine).take 2) = false →
      Record.get (parseLine st rawLine).current ((pyStrip rawLine).take 2)
        = pyStrip ((pyStrip rawLine).drop 2))
    ∧ (isTagMarker (pyStrip rawLine) = true →
        Record.hasTag st.current ((pyStrip rawLine).take 2) = true →
      Record.get (parseLine st rawLine).current ((pyStrip rawLine).take 2)
        = Record.get st.current ((pyStrip rawLine).take 2)
          ++ ' ' :: pyStrip ((pyStrip rawLine).drop 2))
    ∧ (∀ t, isTagMarker (pyStrip rawLine) = false → st.currentTag = some t →
        Record.hasTag st.current t = true →
      Record.get (parseLine st rawLine).current t
        = Record.get st.current t ++ ' ' :: pyStrip rawLine) := by
  refine ⟨fun hm hnew => ?_, fun hm hrep => ?_, fun t hm htag hrep => ?_⟩
  · rw [parseLine_marker st rawLine hm]
    exact store_get_new _ _ _ hnew
  · rw [parseLine_marker st rawLine hm]
    exact store_get_repeat _ _ _ hrep
  · rw [parseLine_continuation st rawLine t hne hm htag]
    exact store_get_repeat _ _ _ hrep

/-- A parser state in the middle of a record holding `%T -> One`. -/
def exPSt : PState := ⟨[], [(tagT, "One".toList)], some tagT⟩

theorem C6_field_accumulation_witness :
    Record.get (parseLine exPSt "%X Abs".toList).current tagX = "Abs".toList
    ∧ Record.get (parseLine exPSt "%T Two".toList).current tagT
      = "One Two".toList
    ∧ Record.get (parseLine exPSt "cont".toList).current tagT
      = "One cont".toList :=
  ⟨(C6_field_accumulation exPSt "%X Abs".toList (by decide)).1
      (by decide) (by decide),
   (C6_field_accumulation exPSt "%T Two".toList (by decide)).2.1
      (by decide) (by decide),
   (C6_field_accumulation exPSt "cont".toList (by decide)).2.2 tagT
      (by decide) (by decide) (by decide)⟩

theorem parseLine_blank (st : PState) (rawLine : Str)
    (h : pyStrip rawLine = []) :
    parseLine st rawLine
      = ⟨(if st.current = [] then st.entries else st.entries ++ [st.current]),
         [], st.currentTag⟩ := by
  obtain ⟨en, cur, tg⟩ := st
  by_cases hc : cur = [] <;> simp [parseLine, h, hc]

/-- C7 counterexample: the blank line does NOT reset the parser's tag state.
In `"%A foo\n\nbar"` the line `bar` after the blank line is stored under the
tag `%A` inherited from the record before the blank, yielding a second record
`{%A: bar}`, while a fresh parse of `"bar"` alone stores nothing; and the
loop state right after `"%A foo"` plus a blank line still carries
`currentTag = some %A`. So the parse after a blank line does depend on tag
state carried over from before it. -/
theorem C7_counterexample :
    parse_endnote_entries "%A foo\n\nbar".toList
      = [[(['%', 'A'], "foo".toList)], [(['%', 'A'], "bar".toList)]]
    ∧ parse_endnote_entries "bar".toList = []
    ∧ ((splitLines "%A foo\n".toList).foldl parseLine ⟨[], [], none⟩).currentTag
      = some ['%', 'A'] :=
  ⟨by decide, by decide, by decide⟩

/-- C7 (amended): a blank line terminates the current record — a non-empty
accumulated entry is appended to the output and the field accumulator is
reset to empty — but the current tag is NOT reset: it survives the blank
line unchanged, so a following record whose lines lack tag markers inherits
the tag from before the blank. -/
theorem C7_blank_line_reset (st : PState) (rawLine : Str)
    (h : pyStrip rawLine = []) :
    parseLine st rawLine
      = ⟨(if st.current = [] then st.entries else st.entries ++ [st.current]),
         [], st.currentTag⟩ :=
  parseLine_blank st rawLine h

theorem C7_blank_line_reset_witness :
    parseLine ⟨[], [(tagT, "A".toList)], some tagT⟩ "  ".toList
      = ⟨[[(tagT, "A".toList)]], [], some tagT⟩ :=
  C7_blank_line_reset ⟨[], [(tagT, "A".toList)], some tagT⟩ "  ".toList
    (by decide)

/-- Lines of well-formed records separated by single blank lines, with no
trailing blank line after the last record. -/
def joinBlank : List (List Str) → List Str
  | [] => []
  | [r] => r
  | r :: rest => r ++ [] :: joinBlank rest

theorem store_ne_nil (r : Record) (k v : Str) : r.store k v ≠ [] := by
  unfold Record.store
  split_ifs with h
  · cases r with
    | nil => simp [Record.hasTag] at h
    | cons p rest => simp
  · simp

theorem foldl_tagged_lines (lines : List Str) (st : PState)
    (htag : ∀ l ∈ lines, isTagMarker (pyStrip l) = true) :
    (lines.foldl parseLine st).entries = st.entries
    ∧ ((lines.foldl parseLine st).current = [] → st.current = [] ∧ lines = []) := by
  induction lines generalizing st with
  | nil => exact ⟨rfl, fun h => ⟨h, rfl⟩⟩
  | cons l ls ih =>
    have hl := htag l (List.mem_cons_self l ls)
    rw [List.foldl_cons, parseLine_marker st l hl]
    obtain ⟨h1, h2⟩ := ih _ (fun x hx => htag x (List.mem_cons_of_mem l hx))
    exact ⟨h1, fun hcur => absurd (h2 hcur).1 (store_ne_nil _ _ _)⟩

theorem foldl_joinBlank (recs : List (List Str)) (st : PState)
    (hcur : st.current = [])
    (hne : ∀ r ∈ recs, r ≠ [])
    (htag : ∀ r ∈ recs, ∀ l ∈ r, isTagMarker (pyStrip l) = true) :
    ((joinBlank recs).foldl parseLine st).entries.length
        + (if ((joinBlank recs).foldl parseLine st).current = [] then 0 else 1)
      = st.entries.length + recs.length := by
  induction recs generalizing st with
  | nil => simp [joinBlank, hcur]
  | cons r rest ih =>
    have hr := hne r (List.mem_cons_self r rest)
    have hrt := htag r (List.mem_cons_self r rest)
    obtain ⟨he, hc⟩ := foldl_tagged_lines r st hrt
    cases rest with
    | nil =>
      show (((joinBlank [r]).foldl parseLine st).entries.length + _) = _
      rw [show joinBlank [r] = r from rfl]
      rw [he]
      have : (r.foldl parseLine st).current ≠ [] := fun h => hr (hc h).2
      simp [this]
    | cons r2 rest2 =>
      rw [show joinBlank (r :: r2 :: rest2) = r ++ [] :: joinBlank (r2 :: rest2)
          from rfl]
      rw [List.foldl_append, List.foldl_cons,
        parseLine_blank (r.foldl parseLine st) [] rfl]
      have hcur2 : (r.foldl parseLine st).current ≠ [] := fun h => hr (hc h).2
      rw [if_neg hcur2]
      have := ih ⟨(r.foldl parseLine st).entries ++ [(r.foldl parseLine st).current],
          [], (r.foldl parseLine st).currentTag⟩ rfl
        (fun x hx => hne x (List.mem_cons_of_mem r hx))
        (fun x hx => htag x (List.mem_cons_of_mem r hx))
      simp only [this]
      simp [he]
      omega

/-- C5: for an input whose lines form `K` well-formed records — each a
non-empty run of tag-marker lines — separated by single blank lines and with
no trailing blank line, the parser returns exactly `K` records: the final
record, though never followed by a blank line, is still flushed at end of
input. -/
theorem C5_parser_record_count (content : Str) (recs : List (List Str))
    (hsplit : splitLines content = joinBlank recs)
    (hne : ∀ r ∈ recs, r ≠ [])
    (htag : ∀ r ∈ recs, ∀ l ∈ r, isTagMarker (pyStrip l) = true) :
    (parse_endnote_entries content).length = recs.length := by
  unfold parse_endnote_entries
  rw [hsplit]
  have h := foldl_joinBlank recs ⟨[], [], none⟩ rfl hne htag
  show (if (List.foldl parseLine ⟨[], [], none⟩ (joinBlank recs)).current = []
      then (List.foldl parseLine ⟨[], [], none⟩ (joinBlank recs)).entries
      else (List.foldl parseLine ⟨[], [], none⟩ (joinBlank recs)).entries
        ++ [(List.foldl parseLine ⟨[], [], none⟩ (joinBlank recs)).current]).length
    = recs.length
  split_ifs with hc
  · simpa [hc] using h
  · rw [List.length_append]
    simpa [hc] using h

theorem C5_parser_record_count_witness :
    (parse_endnote_entries "%T a\n%X b\n\n%T c".toList).length = 2 :=
  C5_parser_record_count "%T a\n%X b\n\n%T c".toList
    [["%T a".toList, "%X b".toList], ["%T c".toList]]
    (by decide) (by decide) (by decide)
